import Mathlib

/-!
Shallow embedding of `gen.py`, a minimal static-site generator.  The script
walks a `content` directory, converts every Markdown file to HTML via the
markdown2 collaborator, renders each through a `post` template, collects the
returned front-matter metadata in a dict keyed by source path, and finally
renders an `index` template over that dict.  Before the walk it deletes the
old `_site` output (swallowing `IOError`) and copies the `static` directory
to `_site`.  The external collaborators (markdown2, jinja2, the filesystem)
are modelled as explicit inputs: the parse results, the template render
functions and the directory walk are parameters of the embedded pipeline.
-/

set_option synthInstance.maxSize 1024

namespace StaticGen

/-- Strings are modelled as lists of characters so that the character-level
scanning of Python `str.replace` can be reasoned about directly. -/
abbrev Str := List Char

/-- A Python dict with string keys, modelled as an association list without
duplicate keys (the operations below preserve key uniqueness). -/
abbrev Assoc := List (Str × Str)

/-- Python `s.replace(pat, rep)` scans left to right and rewrites each
non-overlapping occurrence of `pat`.  Structural fuel makes the definition
kernel-reducible; `pyReplace` instantiates the fuel with `s.length`, which
is always sufficient for a non-empty pattern. -/
def replaceFuel : Nat → Str → Str → Str → Str
  | 0, s, _, _ => s
  | _ + 1, [], _, _ => []
  | fuel + 1, c :: rest, pat, rep =>
    if pat.isPrefixOf (c :: rest) && !pat.isEmpty then
      rep ++ replaceFuel fuel ((c :: rest).drop pat.length) pat rep
    else
      c :: replaceFuel fuel rest pat rep

/-- Python `s.replace(pat, rep)` for a non-empty pattern. -/
def pyReplace (s pat rep : Str) : Str := replaceFuel s.length s pat rep

theorem replaceFuel_nil (f : Nat) (pat rep : Str) : replaceFuel f [] pat rep = [] := by
  cases f <;> rfl

theorem replaceFuel_congr (f₁ : Nat) : ∀ (f₂ : Nat) (s pat rep : Str),
    s.length ≤ f₁ → s.length ≤ f₂ →
    replaceFuel f₁ s pat rep = replaceFuel f₂ s pat rep := by
  induction f₁ with
  | zero =>
    intro f₂ s pat rep h₁ _
    have hs : s = [] := List.eq_nil_of_length_eq_zero (Nat.le_zero.mp h₁)
    subst hs
    simp [replaceFuel_nil]
  | succ f ih =>
    intro f₂ s pat rep h₁ h₂
    cases s with
    | nil => simp [replaceFuel_nil]
    | cons c rest =>
      cases f₂ with
      | zero => simp at h₂
      | succ f₂' =>
        simp only [replaceFuel]
        by_cases hc : (pat.isPrefixOf (c :: rest) && !pat.isEmpty) = true
        · rw [if_pos hc, if_pos hc]
          have hne : pat ≠ [] := by
            simp only [Bool.and_eq_true] at hc
            intro hnil
            subst hnil
            simp at hc
          have hlen : 0 < pat.length := List.length_pos.mpr hne
          have hd : ((c :: rest).drop pat.length).length ≤ f := by
            simp only [List.length_drop, List.length_cons]
            have := h₁
            simp only [List.length_cons] at this
            omega
          have hd₂ : ((c :: rest).drop pat.length).length ≤ f₂' := by
            simp only [List.length_drop, List.length_cons]
            have := h₂
            simp only [List.length_cons] at this
            omega
          rw [ih f₂' _ pat rep hd hd₂]
        · rw [if_neg hc, if_neg hc]
          have hr : rest.length ≤ f := by
            simp only [List.length_cons] at h₁
            omega
          have hr₂ : rest.length ≤ f₂' := by
            simp only [List.length_cons] at h₂
            omega
          rw [ih f₂' rest pat rep hr hr₂]

theorem replaceFuel_eq_pyReplace (fuel : Nat) (s pat rep : Str) (h : s.length ≤ fuel) :
    replaceFuel fuel s pat rep = pyReplace s pat rep :=
  replaceFuel_congr fuel s.length s pat rep h (Nat.le_refl _)

theorem isPrefixOf_append_left (l t : Str) : l.isPrefixOf (l ++ t) = true := by
  induction l with
  | nil => simp
  | cons a as ih => simp [List.isPrefixOf_cons₂, ih]

/-- A replacement step at a position where the pattern matches. -/
theorem pyReplace_matched (pat t rep : Str) (hp : pat ≠ []) :
    pyReplace (pat ++ t) pat rep = rep ++ pyReplace t pat rep := by
  cases pat with
  | nil => exact absurd rfl hp
  | cons p ps =>
    show replaceFuel ((p :: ps) ++ t).length ((p :: ps) ++ t) (p :: ps) rep = _
    have hlen : ((p :: ps) ++ t).length = (ps ++ t).length + 1 := by
      simp [List.length_append]
    rw [hlen]
    show (if (p :: ps).isPrefixOf (p :: (ps ++ t)) && !(p :: ps).isEmpty then
        rep ++ replaceFuel (ps ++ t).length ((p :: (ps ++ t)).drop (p :: ps).length) (p :: ps) rep
      else
        p :: replaceFuel (ps ++ t).length (ps ++ t) (p :: ps) rep) = _
    have hcond : ((p :: ps).isPrefixOf (p :: (ps ++ t)) && !(p :: ps).isEmpty) = true := by
      have : (p :: (ps ++ t)) = (p :: ps) ++ t := by simp
      rw [this, isPrefixOf_append_left]
      rfl
    rw [if_pos hcond]
    have hdrop : (p :: (ps ++ t)).drop (p :: ps).length = t := by
      have : (p :: (ps ++ t)) = (p :: ps) ++ t := by simp
      rw [this, List.drop_left]
    rw [hdrop]
    rw [replaceFuel_eq_pyReplace _ t _ rep (by simp [List.length_append])]

/-- When the pattern matches at no position of `s`, replacement is the
identity.  The hypothesis is stated positionally so that concrete instances
are decidable. -/
theorem replaceFuel_no_match (fuel : Nat) : ∀ (s pat rep : Str), s.length ≤ fuel →
    (∀ k, k < s.length → pat.isPrefixOf (s.drop k) = false) →
    replaceFuel fuel s pat rep = s := by
  induction fuel with
  | zero =>
    intro s pat rep h₁ _
    have hs : s = [] := List.eq_nil_of_length_eq_zero (Nat.le_zero.mp h₁)
    subst hs
    rfl
  | succ f ih =>
    intro s pat rep h₁ h
    cases s with
    | nil => rfl
    | cons c rest =>
      have h0 : pat.isPrefixOf (c :: rest) = false := by
        have := h 0 (by simp)
        simpa using this
      simp only [replaceFuel, h0, Bool.false_and, Bool.false_eq_true, if_false]
      have hr : rest.length ≤ f := by
        simp only [List.length_cons] at h₁
        omega
      rw [ih rest pat rep hr]
      intro k hk
      have := h (k + 1) (by simp only [List.length_cons]; omega)
      simpa using this

theorem pyReplace_no_match (s pat rep : Str)
    (h : ∀ k, k < s.length → pat.isPrefixOf (s.drop k) = false) :
    pyReplace s pat rep = s :=
  replaceFuel_no_match s.length s pat rep (Nat.le_refl _) h

/-- When the only occurrence of the pattern is the final extension, replacing
swaps exactly that extension. -/
theorem replaceFuel_tail (fuel : Nat) : ∀ (s pat rep : Str),
    (s ++ pat).length ≤ fuel → pat ≠ [] →
    (∀ k, k < s.length → pat.isPrefixOf ((s ++ pat).drop k) = false) →
    replaceFuel fuel (s ++ pat) pat rep = s ++ rep := by
  induction fuel with
  | zero =>
    intro s pat rep h₁ hp _
    have : (s ++ pat).length = 0 := Nat.le_zero.mp h₁
    simp only [List.length_append] at this
    have : pat.length = 0 := by omega
    exact absurd (List.eq_nil_of_length_eq_zero this) hp
  | succ f ih =>
    intro s pat rep h₁ hp h
    cases s with
    | nil =>
      cases pat with
      | nil => exact absurd rfl hp
      | cons p ps =>
        show replaceFuel (f + 1) (p :: ps) (p :: ps) rep = rep
        show (if (p :: ps).isPrefixOf (p :: ps) && !(p :: ps).isEmpty then
            rep ++ replaceFuel f ((p :: ps).drop (p :: ps).length) (p :: ps) rep
          else
            p :: replaceFuel f ps (p :: ps) rep) = rep
        have hcond : ((p :: ps).isPrefixOf (p :: ps) && !(p :: ps).isEmpty) = true := by
          have hself : (p :: ps).isPrefixOf (p :: ps) = true := by
            have h := isPrefixOf_append_left (p :: ps) []
            rwa [List.append_nil] at h
          rw [hself]
          rfl
        rw [if_pos hcond, List.drop_length, replaceFuel_nil, List.append_nil]
    | cons c s' =>
      have h0 : pat.isPrefixOf (c :: (s' ++ pat)) = false := by
        have := h 0 (by simp)
        simpa using this
      show replaceFuel (f + 1) (c :: (s' ++ pat)) pat rep = c :: (s' ++ rep)
      show (if pat.isPrefixOf (c :: (s' ++ pat)) && !pat.isEmpty then
          rep ++ replaceFuel f ((c :: (s' ++ pat)).drop pat.length) pat rep
        else
          c :: replaceFuel f (s' ++ pat) pat rep) = c :: (s' ++ rep)
      rw [h0]
      simp only [Bool.false_and, Bool.false_eq_true, if_false]
      rw [ih s' pat rep (by simp only [List.length_append] at h₁ ⊢; simp only [List.length_cons] at h₁; omega) hp]
      intro k hk
      have := h (k + 1) (by simp only [List.length_cons]; omega)
      simpa using this

theorem pyReplace_tail (s pat rep : Str) (hp : pat ≠ [])
    (h : ∀ k, k < s.length → pat.isPrefixOf ((s ++ pat).drop k) = false) :
    pyReplace (s ++ pat) pat rep = s ++ rep :=
  replaceFuel_tail (s ++ pat).length s pat rep (Nat.le_refl _) hp h

/-- The literal "content\" used by `gen.py` as the content-root path prefix. -/
def contentBS : Str := "content\\".data

/-- The literal "_site\" used by `gen.py` as the output-root path prefix. -/
def siteBS : Str := "_site\\".data

/-- The Markdown extension ".md". -/
def mdExt : Str := ".md".data

/-- The HTML extension ".html". -/
def htmlExt : Str := ".html".data

/-- The reserved render-context key "content". -/
def contentKey : Str := "content".data

/-- The index output path "_site/index.html" written by `make_index`. -/
def indexPath : Str := "_site/index.html".data

/-- Line 34 of `gen.py`:
`html_file = fn.replace("content\\", "_site\\").replace(".md", ".html")`. -/
def html_file (fn : Str) : Str :=
  pyReplace (pyReplace fn contentBS siteBS) mdExt htmlExt

/-- Python dict lookup `d[k]` (first matching key; the operations below keep
keys unique, so first = only). -/
def dictGet {α : Type} : List (Str × α) → Str → Option α
  | [], _ => none
  | (k, v) :: rest, key => if k = key then some v else dictGet rest key

/-- Python dict assignment `d[k] = v`: overwrite in place if the key exists,
otherwise append (preserving insertion order). -/
def dictSet {α : Type} : List (Str × α) → Str → α → List (Str × α)
  | [], key, val => [(key, val)]
  | (k, v) :: rest, key, val =>
    if k = key then (k, val) :: rest else (k, v) :: dictSet rest key val

/-- Python `d.update(m)`: assign every entry of `m` into `d`, in order. -/
def dictUpdate {α : Type} (d m : List (Str × α)) : List (Str × α) :=
  m.foldl (fun acc kv => dictSet acc kv.1 kv.2) d

theorem dictGet_dictSet_self {α : Type} (d : List (Str × α)) (k : Str) (v : α) :
    dictGet (dictSet d k v) k = some v := by
  induction d with
  | nil => simp [dictSet, dictGet]
  | cons kv rest ih =>
    obtain ⟨k', v'⟩ := kv
    by_cases h : k' = k
    · subst h
      simp [dictSet, dictGet]
    · simp [dictSet, dictGet, h, ih]

theorem dictGet_dictSet_ne {α : Type} (d : List (Str × α)) (k k' : Str) (v : α)
    (h : k' ≠ k) : dictGet (dictSet d k' v) k = dictGet d k := by
  induction d with
  | nil => simp [dictSet, dictGet, h]
  | cons kv rest ih =>
    obtain ⟨k₀, v₀⟩ := kv
    by_cases h0 : k₀ = k'
    · subst h0
      simp [dictSet, dictGet, h]
    · simp [dictSet, dictGet, h0, ih]

theorem dictGet_none_of_not_mem {α : Type} (d : List (Str × α)) (k : Str)
    (h : k ∉ d.map Prod.fst) : dictGet d k = none := by
  induction d with
  | nil => rfl
  | cons kv rest ih =>
    obtain ⟨k₀, v₀⟩ := kv
    simp only [List.map_cons, List.mem_cons] at h
    push_neg at h
    have hne : ¬ k₀ = k := fun hn => h.1 hn.symm
    simp [dictGet, hne, ih h.2]

theorem dictSet_keys_of_not_mem {α : Type} (d : List (Str × α)) (k : Str) (v : α)
    (h : k ∉ d.map Prod.fst) :
    (dictSet d k v).map Prod.fst = d.map Prod.fst ++ [k] := by
  induction d with
  | nil => simp [dictSet]
  | cons kv rest ih =>
    obtain ⟨k₀, v₀⟩ := kv
    simp only [List.map_cons, List.mem_cons] at h
    push_neg at h
    have hne : k₀ ≠ k := fun hn => h.1 hn.symm
    simp [dictSet, hne, ih h.2]

theorem dictGet_dictUpdate_none {α : Type} (m : List (Str × α)) :
    ∀ (d : List (Str × α)) (k : Str), dictGet m k = none →
    dictGet (dictUpdate d m) k = dictGet d k := by
  induction m with
  | nil => intro d k _; rfl
  | cons kv m' ih =>
    intro d k h
    obtain ⟨k₀, v₀⟩ := kv
    have hne : k₀ ≠ k := by
      intro he
      simp [dictGet, he] at h
    have hm' : dictGet m' k = none := by
      simpa [dictGet, hne] using h
    show dictGet (dictUpdate (dictSet d k₀ v₀) m') k = dictGet d k
    rw [ih (dictSet d k₀ v₀) k hm', dictGet_dictSet_ne d k k₀ v₀ hne]

theorem dictGet_dictUpdate_some {α : Type} (m : List (Str × α)) :
    ∀ (d : List (Str × α)) (k : Str) (v : α), (m.map Prod.fst).Nodup →
    dictGet m k = some v → dictGet (dictUpdate d m) k = some v := by
  induction m with
  | nil => intro d k v _ h; simp [dictGet] at h
  | cons kv m' ih =>
    intro d k v hn h
    obtain ⟨k₀, v₀⟩ := kv
    simp only [List.map_cons, List.nodup_cons] at hn
    by_cases he : k₀ = k
    · subst he
      have hv : v₀ = v := by simpa [dictGet] using h
      subst hv
      have hm' : dictGet m' k₀ = none := dictGet_none_of_not_mem m' k₀ hn.1
      show dictGet (dictUpdate (dictSet d k₀ v₀) m') k₀ = some v₀
      rw [dictGet_dictUpdate_none m' (dictSet d k₀ v₀) k₀ hm', dictGet_dictSet_self]
    · have hm' : dictGet m' k = some v := by
        simpa [dictGet, he] using h
      exact ih (dictSet d k₀ v₀) k v hn.2 hm'

/-- The parse result of one Markdown file, as returned by
`markdown(file.read(), extras=[...])`: the converted HTML body together with
the front-matter metadata mapping. -/
structure ParsedMd where
  html : Str
  metadata : Assoc
deriving DecidableEq

/-- The two jinja2 templates, treated as black-box render functions:
`post.html` receives the per-post context, `index.html` receives the pages
dict. -/
structure Templates where
  renderPost : Assoc → Str
  renderIndex : List (Str × Assoc) → Str

/-- Everything `handle_md` produces for one file: the destination path, the
render context passed to the post template, the rendered text written there,
and the value returned to the caller (`return md`, lines 24 and 39). -/
structure MdOutput where
  path : Str
  context : Assoc
  rendered : Str
  ret : Assoc

/-- Lines 17-39 of `gen.py`: build `data = {"content": parsed_md}`, then
`data.update(md)`, compute `html_file`, render and write the post template,
and return the metadata `md`. -/
def handle_md (tp : Templates) (fn : Str) (p : ParsedMd) : MdOutput :=
  { path := html_file fn
  , context := dictUpdate [(contentKey, p.html)] p.metadata
  , rendered := tp.renderPost (dictUpdate [(contentKey, p.html)] p.metadata)
  , ret := p.metadata }

/-- When "content\" occurs nowhere in `stem ++ ".md"` and ".md" occurs in
"_site\" ++ stem ++ ".md" only as the final extension, `html_file` maps
"content\" ++ stem ++ ".md" to "_site\" ++ stem ++ ".html": the replace-all
calls of line 34 degenerate to a prefix swap plus an extension swap. -/
theorem html_file_mirror (stem : Str)
    (h1 : ∀ k, k < (stem ++ mdExt).length →
      contentBS.isPrefixOf ((stem ++ mdExt).drop k) = false)
    (h2 : ∀ k, k < (siteBS ++ stem).length →
      mdExt.isPrefixOf (((siteBS ++ stem) ++ mdExt).drop k) = false) :
    html_file ((contentBS ++ stem) ++ mdExt) = (siteBS ++ stem) ++ htmlExt := by
  show pyReplace (pyReplace ((contentBS ++ stem) ++ mdExt) contentBS siteBS) mdExt htmlExt = _
  have step1 : pyReplace ((contentBS ++ stem) ++ mdExt) contentBS siteBS
      = (siteBS ++ stem) ++ mdExt := by
    rw [List.append_assoc]
    rw [pyReplace_matched contentBS (stem ++ mdExt) siteBS (by decide)]
    rw [pyReplace_no_match (stem ++ mdExt) contentBS siteBS h1]
    rw [List.append_assoc]
  rw [step1]
  exact pyReplace_tail (siteBS ++ stem) mdExt htmlExt (by decide) h2

/-- One entry yielded by `glob.iglob("content/**", recursive=True)`, together
with the `os.path.isdir` classification the loop performs on it. -/
structure Entry where
  path : Str
  isDir : Bool
deriving DecidableEq

/-- The ways the embedded run can abort: `shutil.copytree("static", "_site")`
raising because `static` is absent, or `markdown(...)` raising on some file. -/
inductive GenErr where
  | staticMissing : GenErr
  | parseError : Str → Str → GenErr
deriving DecidableEq

/-- Equality of `Except` results is decidable componentwise; used to
evaluate the pipeline on concrete inputs. -/
def exceptDecEq {ε α : Type} [DecidableEq ε] [DecidableEq α] : DecidableEq (Except ε α)
  | .error a, .error b =>
    if h : a = b then .isTrue (by rw [h]) else .isFalse (fun hc => h (Except.error.inj hc))
  | .error _, .ok _ => .isFalse (fun hc => Except.noConfusion hc)
  | .ok _, .error _ => .isFalse (fun hc => Except.noConfusion hc)
  | .ok a, .ok b =>
    if h : a = b then .isTrue (by rw [h]) else .isFalse (fun hc => h (Except.ok.inj hc))

attribute [instance] exceptDecEq

/-- The generated output tree: the directories created by `os.makedirs` and
the files written, as (path, contents) pairs in write order. -/
structure Site where
  dirs : List Str
  files : List (Str × Str)
deriving DecidableEq

/-- The filesystem as the script observes it: whether `static` exists and
what it contains, the sequence of walk entries under `content`, the parse
result the Markdown collaborator yields per source path, and the current
`_site` output (if any) left over from an earlier run. -/
structure FS where
  staticExists : Bool
  staticFiles : List (Str × Str)
  walk : List Entry
  parse : Str → Except Str ParsedMd
  site : Option Site

/-- The loop state: the `pages` dict, the files written so far, and the
directories created so far. -/
abbrev WalkAcc := List (Str × Assoc) × List (Str × Str) × List Str

/-- One iteration of the loop at lines 54-64 of `gen.py`.  A directory is
mirrored under "_site\" after stripping "content\" (the bare content root
strips to the empty string and is skipped); a file ending in ".md" is parsed
and handled, extending `pages` and the writes; any other file is only
logged.  A parse failure aborts with the offending path. -/
def stepEntry (tp : Templates) (parse : Str → Except Str ParsedMd) (e : Entry)
    (acc : WalkAcc) : Except GenErr WalkAcc :=
  if e.isDir then
    if pyReplace e.path contentBS [] = [] then .ok acc
    else .ok (acc.1, acc.2.1, acc.2.2 ++ [siteBS ++ pyReplace e.path contentBS []])
  else if mdExt.isSuffixOf e.path then
    match parse e.path with
    | .error msg => .error (.parseError e.path msg)
    | .ok p =>
      .ok (dictSet acc.1 e.path (handle_md tp e.path p).ret,
        acc.2.1 ++ [((handle_md tp e.path p).path, (handle_md tp e.path p).rendered)],
        acc.2.2)
  else .ok acc

/-- Lines 52-64: the whole walk loop, folding `stepEntry` over the glob
entries and stopping at the first failure. -/
def processWalk (tp : Templates) (parse : Str → Except Str ParsedMd) :
    List Entry → WalkAcc → Except GenErr WalkAcc
  | [], acc => .ok acc
  | e :: rest, acc =>
    match stepEntry tp parse e acc with
    | .error err => .error err
    | .ok acc2 => processWalk tp parse rest acc2

/-- The source paths of the walk entries the loop treats as Markdown files:
non-directories whose path ends in ".md". -/
def mdPaths : List Entry → List Str
  | [] => []
  | e :: rest =>
    if e.isDir then mdPaths rest
    else if mdExt.isSuffixOf e.path then e.path :: mdPaths rest
    else mdPaths rest

/-- Lines 52-67: run the walk over an output tree already holding the copied
static files, then append the index page `make_index` writes from the
accumulated `pages` dict. -/
def genSite (tp : Templates) (parse : Str → Except Str ParsedMd)
    (staticFiles : List (Str × Str)) (walk : List Entry) : Except GenErr Site :=
  match processWalk tp parse walk ([], [], []) with
  | .error e => .error e
  | .ok (pages, writes, dirs) =>
    .ok { dirs := dirs
        , files := staticFiles ++ writes ++ [(indexPath, tp.renderIndex pages)] }

/-- Lines 44-50: delete `_site` (swallowing the error), then
`shutil.copytree("static", "_site")`, which fails iff `static` is absent and
otherwise leaves `_site` holding exactly the static files. -/
def prepareOutput (fs : FS) : Except GenErr (List (Str × Str)) :=
  if fs.staticExists then .ok fs.staticFiles else .error .staticMissing

/-- The whole `__main__` block, lines 41-67: prepare the output, walk the
content tree, write the index.  On success the filesystem is unchanged
except that `_site` now holds the freshly generated site. -/
def run (tp : Templates) (fs : FS) : Except GenErr FS :=
  match prepareOutput fs with
  | .error e => .error e
  | .ok copied =>
    match genSite tp fs.parse copied fs.walk with
    | .error e => .error e
    | .ok s => .ok { fs with site := some s }

/-- The exceptions `shutil.rmtree("_site")` can raise, classified by whether
Python 3 counts them as `OSError` (of which `IOError` is an alias):
a missing directory raises `FileNotFoundError`, a permission problem raises
`PermissionError`, both subclasses of `OSError`; `nonOSError` stands for any
exception outside that family (e.g. `KeyboardInterrupt`). -/
inductive PyExc where
  | fileNotFoundError : PyExc
  | permissionError : PyExc
  | otherOSError : PyExc
  | nonOSError : PyExc
deriving DecidableEq

/-- Python 3 `isinstance(e, IOError)`: `IOError` is `OSError`, so every
member of the OSError family matches. -/
def isIOError : PyExc → Bool
  | .fileNotFoundError => true
  | .permissionError => true
  | .otherOSError => true
  | .nonOSError => false

/-- Lines 44-47: `try: shutil.rmtree("_site") except IOError: pass`, applied
to the outcome of the deletion (`none` = it succeeded).  Returns `true` when
the run continues past the deletion and `false` when it aborts. -/
def deleteOutput : Option PyExc → Bool
  | none => true
  | some e => isIOError e

theorem processWalk_append (tp : Templates) (parse : Str → Except Str ParsedMd)
    (xs ys : List Entry) : ∀ (acc : WalkAcc),
    processWalk tp parse (xs ++ ys) acc =
      match processWalk tp parse xs acc with
      | .error err => .error err
      | .ok acc2 => processWalk tp parse ys acc2 := by
  induction xs with
  | nil => intro acc; rfl
  | cons e rest ih =>
    intro acc
    simp only [List.cons_append, processWalk]
    cases hs : stepEntry tp parse e acc with
    | error err => rfl
    | ok acc2 => exact ih acc2

/-- A walk step on an entry whose path differs from `k` leaves the `pages`
value at `k` unchanged. -/
theorem stepEntry_pages_get (tp : Templates) (parse : Str → Except Str ParsedMd)
    (e : Entry) (acc acc2 : WalkAcc) (k : Str)
    (h : stepEntry tp parse e acc = .ok acc2) (hk : k ≠ e.path) :
    dictGet acc2.1 k = dictGet acc.1 k := by
  unfold stepEntry at h
  split at h
  · split at h
    · cases h; rfl
    · cases h; rfl
  · split at h
    · split at h
      · exact Except.noConfusion h
      · cases h
        exact dictGet_dictSet_ne acc.1 k e.path _ (Ne.symm hk)
    · cases h; rfl

/-- Keys absent from the remaining walk keep their `pages` value to the end
of the loop. -/
theorem processWalk_pages_preserved (tp : Templates)
    (parse : Str → Except Str ParsedMd) (walk : List Entry) :
    ∀ (acc acc2 : WalkAcc) (k : Str),
    processWalk tp parse walk acc = .ok acc2 → k ∉ walk.map Entry.path →
    dictGet acc2.1 k = dictGet acc.1 k := by
  induction walk with
  | nil =>
    intro acc acc2 k h _
    cases h
    rfl
  | cons e rest ih =>
    intro acc acc2 k h hk
    simp only [List.map_cons, List.mem_cons] at hk
    push_neg at hk
    simp only [processWalk] at h
    cases hs : stepEntry tp parse e acc with
    | error err =>
      rw [hs] at h
      exact Except.noConfusion h
    | ok acc1 =>
      rw [hs] at h
      rw [ih acc1 acc2 k h hk.2]
      exact stepEntry_pages_get tp parse e acc acc1 k hs hk.1

/-- The source paths of the walk entries the loop treats as Markdown files
are a sublist of all walked paths. -/
theorem mdPaths_sublist (walk : List Entry) :
    (mdPaths walk).Sublist (walk.map Entry.path) := by
  induction walk with
  | nil => simp [mdPaths]
  | cons e rest ih =>
    by_cases hd : e.isDir
    · simp only [mdPaths, hd, if_true, List.map_cons]
      exact ih.cons e.path
    · have hd' : e.isDir = false := by simpa using hd
      by_cases hs : mdExt.isSuffixOf e.path = true
      · simp only [mdPaths, hd', Bool.false_eq_true, if_false, hs, if_true, List.map_cons]
        exact ih.cons₂ e.path
      · have hs' : mdExt.isSuffixOf e.path = false := by simpa only [Bool.not_eq_true] using hs
        simp only [mdPaths, hd', Bool.false_eq_true, if_false, hs', List.map_cons]
        exact ih.cons e.path

/-- The keys accumulated in `pages` by the loop are the initial keys followed
by exactly the Markdown paths of the walk, provided no collisions occur. -/
theorem processWalk_keys (tp : Templates) (parse : Str → Except Str ParsedMd)
    (walk : List Entry) : ∀ (acc acc2 : WalkAcc),
    processWalk tp parse walk acc = .ok acc2 →
    (mdPaths walk).Nodup →
    (∀ p ∈ mdPaths walk, p ∉ acc.1.map Prod.fst) →
    acc2.1.map Prod.fst = acc.1.map Prod.fst ++ mdPaths walk := by
  induction walk with
  | nil =>
    intro acc acc2 h _ _
    cases h
    simp [mdPaths]
  | cons e rest ih =>
    intro acc acc2 h hn hd
    simp only [processWalk] at h
    by_cases hdir : e.isDir
    · have hmd : mdPaths (e :: rest) = mdPaths rest := by simp [mdPaths, hdir]
      rw [hmd] at hn hd ⊢
      unfold stepEntry at h
      simp only [hdir, if_true] at h
      by_cases hf : pyReplace e.path contentBS [] = []
      · simp only [hf, if_true] at h
        exact ih acc acc2 h hn hd
      · simp only [hf, if_false] at h
        have h2 := ih (acc.1, acc.2.1, acc.2.2 ++ [siteBS ++ pyReplace e.path contentBS []])
          acc2 h hn hd
        simpa using h2
    · have hdir' : e.isDir = false := by simpa using hdir
      unfold stepEntry at h
      simp only [hdir', Bool.false_eq_true, if_false] at h
      by_cases hsuf : mdExt.isSuffixOf e.path = true
      · have hmd : mdPaths (e :: rest) = e.path :: mdPaths rest := by
          simp [mdPaths, hdir', hsuf]
        rw [hmd] at hn hd ⊢
        simp only [hsuf, if_true] at h
        cases hp : parse e.path with
        | error msg =>
          rw [hp] at h
          exact Except.noConfusion h
        | ok p =>
          rw [hp] at h
          have hnotin : e.path ∉ acc.1.map Prod.fst := hd e.path (List.mem_cons_self _ _)
          have hkeys : (dictSet acc.1 e.path (handle_md tp e.path p).ret).map Prod.fst
              = acc.1.map Prod.fst ++ [e.path] :=
            dictSet_keys_of_not_mem acc.1 e.path _ hnotin
          simp only [List.nodup_cons] at hn
          have hd2 : ∀ q ∈ mdPaths rest,
              q ∉ (dictSet acc.1 e.path (handle_md tp e.path p).ret).map Prod.fst := by
            intro q hq
            rw [hkeys]
            simp only [List.mem_append, List.mem_singleton]
            push_neg
            exact ⟨hd q (List.mem_cons_of_mem _ hq), fun he => hn.1 (he ▸ hq)⟩
          have h2 := ih _ acc2 h hn.2 hd2
          simp only at h2
          rw [h2, hkeys, List.append_assoc, List.singleton_append]
      · have hsuf' : mdExt.isSuffixOf e.path = false := by simpa only [Bool.not_eq_true] using hsuf
        have hmd : mdPaths (e :: rest) = mdPaths rest := by
          simp [mdPaths, hdir', hsuf']
        rw [hmd] at hn hd ⊢
        simp only [hsuf', Bool.false_eq_true, if_false] at h
        exact ih acc acc2 h hn hd

/-- Concrete templates for evaluating the pipeline on closed inputs: both
render functions return the empty string. -/
def tp0 : Templates := { renderPost := fun _ => [], renderIndex := fun _ => [] }

/-- A concrete parse oracle under which every file yields an empty body and
empty metadata. -/
def parse0 : Str → Except Str ParsedMd := fun _ => .ok { html := [], metadata := [] }

/-- A parsed Markdown file whose front matter carries `slug: custom`. -/
def pSlug : ParsedMd :=
  { html := "<p>x</p>".data, metadata := [("slug".data, "custom".data)] }

/-- Claim C1, counterexample.  The claim says a file with `slug` metadata S
is written to `_site\S.html` regardless of nesting.  `handle_md` computes
the destination purely from the source path (line 34) and never consults
the metadata: a nested file with `slug: custom` is written to the mirrored
path `_site\sub\b.html`, not to `_site\custom.html`. -/
theorem c1_slug_ignored_cex :
    (handle_md tp0 ("content\\sub\\b.md".data) pSlug).path = "_site\\sub\\b.html".data ∧
    dictGet pSlug.metadata ("slug".data) = some ("custom".data) ∧
    "_site\\sub\\b.html".data ≠ "_site\\custom.html".data := by
  exact ⟨by decide, by decide, by decide⟩

/-- Claim C1, amended: the output path of a Markdown file is always the
mirrored source path with the extension swapped — for every metadata
mapping, a `slug` key included, the metadata has no effect on the
destination (`gen.py` has no slug handling at all).  The two occurrence
hypotheses rule out stray "content\" or ".md" substrings so that the
replace-all of line 34 is exactly the prefix-and-extension swap. -/
theorem c1_output_ignores_slug (tp : Templates) (stem : Str) (p : ParsedMd)
    (h1 : ∀ k, k < (stem ++ mdExt).length →
      contentBS.isPrefixOf ((stem ++ mdExt).drop k) = false)
    (h2 : ∀ k, k < (siteBS ++ stem).length →
      mdExt.isPrefixOf (((siteBS ++ stem) ++ mdExt).drop k) = false) :
    (handle_md tp ((contentBS ++ stem) ++ mdExt) p).path = (siteBS ++ stem) ++ htmlExt :=
  html_file_mirror stem h1 h2

/-- Claim C1 witness: the amended theorem applied to the nested slug-bearing
file `content\sub\b.md`. -/
theorem c1_output_ignores_slug_w :
    (∀ k, k < ("sub\\b".data ++ mdExt).length →
      contentBS.isPrefixOf (("sub\\b".data ++ mdExt).drop k) = false) ∧
    (∀ k, k < (siteBS ++ "sub\\b".data).length →
      mdExt.isPrefixOf (((siteBS ++ "sub\\b".data) ++ mdExt).drop k) = false) ∧
    (handle_md tp0 ((contentBS ++ "sub\\b".data) ++ mdExt) pSlug).path
      = (siteBS ++ "sub\\b".data) ++ htmlExt :=
  ⟨by decide, by decide,
    c1_output_ignores_slug tp0 ("sub\\b".data) pSlug (by decide) (by decide)⟩

/-- A parsed Markdown file whose front matter itself defines a `content`
key. -/
def pEvil : ParsedMd :=
  { html := "<p>body</p>".data, metadata := [(contentKey, "evil".data)] }

/-- Claim C2, counterexample.  The claim says metadata can never overwrite
the HTML body under the `content` key.  Lines 28-32 build
`data = {"content": parsed_md}` and then `data.update(md)`, so a metadata
key `content` overwrites the body: the context carries the metadata value,
not the HTML. -/
theorem c2_metadata_overwrites_cex :
    dictGet (handle_md tp0 ("content\\a.md".data) pEvil).context contentKey
      = some ("evil".data) ∧
    pEvil.html = "<p>body</p>".data ∧
    ("evil".data : Str) ≠ "<p>body</p>".data := by
  exact ⟨by decide, by decide, by decide⟩

/-- Claim C2, amended: the `content` key of the render context holds the
converted HTML body unless the front matter defines its own `content` key,
in which case the metadata value overwrites the body (the update of line 32
runs after the body injection of lines 28-30 and therefore wins). -/
theorem c2_context_content (tp : Templates) (fn : Str) (p : ParsedMd)
    (hn : (p.metadata.map Prod.fst).Nodup) :
    dictGet (handle_md tp fn p).context contentKey
      = some ((dictGet p.metadata contentKey).getD p.html) := by
  show dictGet (dictUpdate [(contentKey, p.html)] p.metadata) contentKey = _
  cases hc : dictGet p.metadata contentKey with
  | none =>
    rw [dictGet_dictUpdate_none p.metadata _ _ hc]
    simp [dictGet]
  | some v =>
    rw [dictGet_dictUpdate_some p.metadata _ _ v hn hc]
    rfl

/-- Claim C2 witness: the amended theorem applied to a file whose front
matter defines `content: evil`; the context then holds "evil". -/
theorem c2_context_content_w :
    (pEvil.metadata.map Prod.fst).Nodup ∧
    dictGet (handle_md tp0 ("content\\a.md".data) pEvil).context contentKey
      = some ((dictGet pEvil.metadata contentKey).getD pEvil.html) :=
  ⟨by decide, c2_context_content tp0 ("content\\a.md".data) pEvil (by decide)⟩

/-- Claim C3, counterexample.  The claim says only the content-root prefix
and the final `.md` extension change.  Line 34 uses Python replace-all, so
the legal filename `content\a.md.md` becomes `_site\a.html.html` — its
inner ".md" is rewritten too — instead of the claimed `_site\a.md.html`. -/
theorem c3_replace_all_cex :
    html_file ("content\\a.md.md".data) = "_site\\a.html.html".data ∧
    "_site\\a.html.html".data ≠ "_site\\a.md.html".data := by
  exact ⟨by decide, by decide⟩

/-- Claim C3, amended: for a source path in which "content\" occurs only as
the leading prefix and ".md" only as the final extension, the output path is
exactly the source path with the prefix replaced by "_site\" and the
extension replaced by ".html"; on other paths the replace-all of line 34
also rewrites the interior occurrences. -/
theorem c3_mirrored_path (stem : Str)
    (h1 : ∀ k, k < (stem ++ mdExt).length →
      contentBS.isPrefixOf ((stem ++ mdExt).drop k) = false)
    (h2 : ∀ k, k < (siteBS ++ stem).length →
      mdExt.isPrefixOf (((siteBS ++ stem) ++ mdExt).drop k) = false) :
    html_file ((contentBS ++ stem) ++ mdExt) = (siteBS ++ stem) ++ htmlExt :=
  html_file_mirror stem h1 h2

/-- Claim C3 witness: the amended theorem applied to `content\posts\a.md`,
which maps to `_site\posts\a.html`. -/
theorem c3_mirrored_path_w :
    (∀ k, k < ("posts\\a".data ++ mdExt).length →
      contentBS.isPrefixOf (("posts\\a".data ++ mdExt).drop k) = false) ∧
    (∀ k, k < (siteBS ++ "posts\\a".data).length →
      mdExt.isPrefixOf (((siteBS ++ "posts\\a".data) ++ mdExt).drop k) = false) ∧
    html_file ((contentBS ++ "posts\\a".data) ++ mdExt)
      = (siteBS ++ "posts\\a".data) ++ htmlExt :=
  ⟨by decide, by decide, c3_mirrored_path ("posts\\a".data) (by decide) (by decide)⟩

/-- Claim C4, counterexample.  The claim says only the absent-directory
error is recovered and a permission error is fatal.  In Python 3 `IOError`
is an alias of `OSError` and `PermissionError` is a subclass of it, so the
`except IOError: pass` of lines 44-47 also swallows the permission error:
the run continues. -/
theorem c4_permission_swallowed_cex :
    deleteOutput (some PyExc.permissionError) = true ∧
    PyExc.permissionError ≠ PyExc.fileNotFoundError := by
  decide

/-- Claim C4, amended: the deletion step recovers the entire `OSError`
family — absent directory, permission denied, and every other `OSError`
alike — and aborts only on an exception outside that family. -/
theorem c4_delete_recovery :
    ∀ o : Option PyExc, deleteOutput o = false ↔ o = some PyExc.nonOSError := by
  intro o
  rcases o with _ | e
  · decide
  · cases e <;> decide

/-- A filesystem whose `static` directory holds one stylesheet. -/
def fsStatic : FS :=
  { staticExists := true
  , staticFiles := [("style.css".data, "x".data)]
  , walk := []
  , parse := parse0
  , site := none }

/-- Claim C5, counterexample.  The claim says that after the output
preparation the output root is an empty directory.  Line 50 is
`shutil.copytree("static", "_site")`: immediately after preparation `_site`
holds the static files, so it is non-empty whenever `static` is. -/
theorem c5_not_empty_cex :
    prepareOutput fsStatic = .ok [("style.css".data, "x".data)] ∧
    ([("style.css".data, "x".data)] : List (Str × Str)) ≠ ([] : List (Str × Str)) := by
  exact ⟨rfl, by decide⟩

/-- Claim C5, amended: every successful run leaves the output root holding
exactly the copied static files followed by the generated post files and the
index page — preparation yields the static directory contents, not an empty
directory, and everything else comes from the content pipeline. -/
theorem c5_output_after_prepare (tp : Templates) (fs fs2 : FS)
    (h : run tp fs = .ok fs2) :
    ∃ pages writes dirs, fs2.site
      = some { dirs := dirs
             , files := fs.staticFiles ++ writes ++ [(indexPath, tp.renderIndex pages)] } := by
  unfold run prepareOutput at h
  by_cases hs : fs.staticExists
  · rw [if_pos hs] at h
    unfold genSite at h
    cases hw : processWalk tp fs.parse fs.walk ([], [], []) with
    | error err =>
      rw [hw] at h
      exact Except.noConfusion h
    | ok acc =>
      rw [hw] at h
      obtain ⟨pages, writes, dirs⟩ := acc
      cases h
      exact ⟨pages, writes, dirs, rfl⟩
  · rw [if_neg hs] at h
    exact Except.noConfusion h

/-- An input filesystem with empty static, content and template data. -/
def fs0 : FS :=
  { staticExists := true, staticFiles := [], walk := [], parse := parse0, site := none }

/-- The site `run tp0 fs0` generates: only the (empty) index page. -/
def site0 : Site := { dirs := [], files := [(indexPath, [])] }

/-- `fs0` after a successful run. -/
def fs1o : FS :=
  { staticExists := true, staticFiles := [], walk := [], parse := parse0
  , site := some site0 }

/-- Claim C5 witness: the amended theorem applied to a concrete successful
run. -/
theorem c5_output_after_prepare_w :
    run tp0 fs0 = .ok fs1o ∧
    (∃ pages writes dirs, fs1o.site
      = some { dirs := dirs
             , files := fs0.staticFiles ++ writes ++ [(indexPath, tp0.renderIndex pages)] }) :=
  ⟨rfl, c5_output_after_prepare tp0 fs0 fs1o rfl⟩

/-- Claim C6: the `pages` dict handed to the index template holds exactly
one entry per Markdown file of the walk — keyed in discovery order by the
Markdown paths — while directories (even nested ones) and non-Markdown
files contribute nothing.  The no-duplicate hypothesis reflects that a
filesystem walk yields each path once. -/
theorem c6_index_entries (tp : Templates) (parse : Str → Except Str ParsedMd)
    (walk : List Entry) (pages : List (Str × Assoc)) (writes : List (Str × Str))
    (dirs : List Str)
    (hn : (walk.map Entry.path).Nodup)
    (h : processWalk tp parse walk ([], [], []) = .ok (pages, writes, dirs)) :
    pages.map Prod.fst = mdPaths walk := by
  have hsub := mdPaths_sublist walk
  have hmd : (mdPaths walk).Nodup := hn.sublist hsub
  have h2 := processWalk_keys tp parse walk ([], [], []) (pages, writes, dirs) h hmd
    (by simp)
  simpa using h2

/-- A walk with the content root, a nested directory, two Markdown files
(one nested) and one non-Markdown file. -/
def walk6 : List Entry :=
  [ { path := "content\\".data, isDir := true }
  , { path := "content\\sub".data, isDir := true }
  , { path := "content\\a.md".data, isDir := false }
  , { path := "content\\sub\\b.md".data, isDir := false }
  , { path := "content\\logo.png".data, isDir := false } ]

/-- The pages accumulated over `walk6`. -/
def pages6 : List (Str × Assoc) :=
  [("content\\a.md".data, []), ("content\\sub\\b.md".data, [])]

/-- The post files written over `walk6`. -/
def writes6 : List (Str × Str) :=
  [("_site\\a.html".data, []), ("_site\\sub\\b.html".data, [])]

/-- The directories created over `walk6`. -/
def dirs6 : List Str := ["_site\\sub".data]

/-- Claim C6 witness: the theorem applied to `walk6`; the index context has
exactly the two Markdown paths as keys. -/
theorem c6_index_entries_w :
    (walk6.map Entry.path).Nodup ∧
    processWalk tp0 parse0 walk6 ([], [], []) = .ok (pages6, writes6, dirs6) ∧
    pages6.map Prod.fst = mdPaths walk6 :=
  ⟨by decide, by decide,
    c6_index_entries tp0 parse0 walk6 pages6 writes6 dirs6 (by decide) (by decide)⟩

/-- A walk holding a single Markdown file. -/
def walk7 : List Entry := [{ path := "content\\a.md".data, isDir := false }]

/-- A parse oracle yielding body "<p>A</p>" and title metadata. -/
def parseA : Str → Except Str ParsedMd :=
  fun _ => .ok { html := "<p>A</p>".data, metadata := [("title".data, "T".data)] }

/-- A parse oracle identical to `parseA` except for the body. -/
def parseB : Str → Except Str ParsedMd :=
  fun _ => .ok { html := "<p>B</p>".data, metadata := [("title".data, "T".data)] }

/-- The pages accumulated over `walk7`: the metadata mapping only. -/
def pages7 : List (Str × Assoc) := [("content\\a.md".data, [("title".data, "T".data)])]

/-- The post file written over `walk7` under `tp0`. -/
def writes7 : List (Str × Str) := [("_site\\a.html".data, [])]

/-- Claim C7, counterexample.  The claim says the PageCollection stores the
full ParsedPost including the converted HTML body.  `handle_md` ends with
`return md` (line 39), so `pages[f]` (line 62) receives only the metadata
mapping: two parses that differ solely in the HTML body produce identical
page collections, hence the body is not part of the stored value. -/
theorem c7_body_not_stored_cex :
    processWalk tp0 parseA walk7 ([], [], []) = .ok (pages7, writes7, []) ∧
    processWalk tp0 parseB walk7 ([], [], []) = .ok (pages7, writes7, []) ∧
    parseA ("content\\a.md".data) ≠ parseB ("content\\a.md".data) := by
  exact ⟨by decide, by decide, by decide⟩

/-- Claim C7, amended: the value the PageCollection stores under a Markdown
file's source path is exactly that file's front-matter metadata mapping;
the converted HTML body is only rendered into the written post file and is
not retained in the collection. -/
theorem c7_pages_hold_metadata (tp : Templates) (parse : Str → Except Str ParsedMd)
    (walk : List Entry) (pages : List (Str × Assoc)) (writes : List (Str × Str))
    (dirs : List Str) (e : Entry) (pm : ParsedMd)
    (hn : (walk.map Entry.path).Nodup)
    (hmem : e ∈ walk) (hdir : e.isDir = false)
    (hsuf : mdExt.isSuffixOf e.path = true)
    (hp : parse e.path = .ok pm)
    (h : processWalk tp parse walk ([], [], []) = .ok (pages, writes, dirs)) :
    dictGet pages e.path = some pm.metadata := by
  obtain ⟨pre, post, hw⟩ := List.append_of_mem hmem
  subst hw
  rw [processWalk_append tp parse pre (e :: post) ([], [], [])] at h
  cases hpre : processWalk tp parse pre ([], [], []) with
  | error err =>
    rw [hpre] at h
    exact Except.noConfusion h
  | ok acc1 =>
    rw [hpre] at h
    simp only [processWalk] at h
    have hstep : stepEntry tp parse e acc1
        = .ok (dictSet acc1.1 e.path (handle_md tp e.path pm).ret,
            acc1.2.1 ++ [((handle_md tp e.path pm).path, (handle_md tp e.path pm).rendered)],
            acc1.2.2) := by
      unfold stepEntry
      rw [hdir]
      simp only [Bool.false_eq_true, if_false]
      rw [hsuf]
      simp only [if_true]
      rw [hp]
    simp only [hstep] at h
    have hnod := hn
    rw [List.map_append, List.map_cons] at hnod
    have h2 : (e.path :: post.map Entry.path).Nodup := (List.nodup_append.mp hnod).2.1
    have hpost : e.path ∉ post.map Entry.path := (List.nodup_cons.mp h2).1
    have hkeep := processWalk_pages_preserved tp parse post _ (pages, writes, dirs)
      e.path h hpost
    rw [hkeep]
    exact dictGet_dictSet_self acc1.1 e.path _

/-- Claim C7 witness: the amended theorem applied to `walk7` under
`parseA`; the stored value is the metadata mapping. -/
theorem c7_pages_hold_metadata_w :
    (walk7.map Entry.path).Nodup ∧
    dictGet pages7 ("content\\a.md".data) = some [("title".data, "T".data)] :=
  ⟨by decide,
    c7_pages_hold_metadata tp0 parseA walk7 pages7 writes7 []
      { path := "content\\a.md".data, isDir := false }
      { html := "<p>A</p>".data, metadata := [("title".data, "T".data)] }
      (by decide) (by decide) rfl (by decide) rfl (by decide)⟩

/-- Claim C8: a parse failure on one Markdown file aborts the whole run
with that file's error.  The conclusion holds for every suffix `post` of
later entries — none of them is processed — and an aborted run never
reaches `make_index` (line 67), which only runs on loop success, so the
index page is not written. -/
theorem c8_parse_failure_aborts (tp : Templates) (fs : FS) (pre post : List Entry)
    (e : Entry) (msg : Str) (acc1 : WalkAcc)
    (hstatic : fs.staticExists = true)
    (hwalk : fs.walk = pre ++ e :: post)
    (hpre : processWalk tp fs.parse pre ([], [], []) = .ok acc1)
    (hdir : e.isDir = false)
    (hsuf : mdExt.isSuffixOf e.path = true)
    (hparse : fs.parse e.path = .error msg) :
    run tp fs = .error (.parseError e.path msg) := by
  unfold run prepareOutput
  rw [if_pos hstatic]
  unfold genSite
  rw [hwalk, processWalk_append tp fs.parse pre (e :: post) ([], [], [])]
  simp only [hpre]
  simp only [processWalk]
  have hstep : stepEntry tp fs.parse e acc1 = .error (.parseError e.path msg) := by
    unfold stepEntry
    rw [hdir]
    simp only [Bool.false_eq_true, if_false]
    rw [hsuf]
    simp only [if_true]
    rw [hparse]
  simp only [hstep]

/-- A filesystem whose only content file fails to parse. -/
def fs8 : FS :=
  { staticExists := true, staticFiles := []
  , walk := [{ path := "content\\bad.md".data, isDir := false }]
  , parse := fun _ => .error ("boom".data), site := none }

/-- Claim C8 witness: the theorem applied to `fs8`. -/
theorem c8_parse_failure_aborts_w :
    fs8.walk = [] ++ ({ path := "content\\bad.md".data, isDir := false } : Entry) :: [] ∧
    run tp0 fs8 = .error (.parseError ("content\\bad.md".data) ("boom".data)) :=
  ⟨rfl,
    c8_parse_failure_aborts tp0 fs8 [] []
      { path := "content\\bad.md".data, isDir := false } ("boom".data)
      ([], [], []) rfl rfl rfl rfl (by decide) rfl⟩

/-- Claim C9: the run is a deterministic function of the static files, the
content walk and the parse results, and it writes only `_site`, which it
first clears — so running it again on the filesystem a successful run left
behind reproduces that filesystem exactly (byte-identical output). -/
theorem c9_run_idempotent (tp : Templates) (fs fs2 : FS)
    (h : run tp fs = .ok fs2) : run tp fs2 = .ok fs2 := by
  unfold run at h
  by_cases hs : fs.staticExists
  · have hp : prepareOutput fs = .ok fs.staticFiles := by
      unfold prepareOutput
      rw [if_pos hs]
    rw [hp] at h
    have h2 : (match genSite tp fs.parse fs.staticFiles fs.walk with
        | .error e => (Except.error e : Except GenErr FS)
        | .ok s => Except.ok { fs with site := some s }) = Except.ok fs2 := h
    cases hg : genSite tp fs.parse fs.staticFiles fs.walk with
    | error err =>
      rw [hg] at h2
      exact Except.noConfusion h2
    | ok s =>
      rw [hg] at h2
      have h3 : Except.ok { fs with site := some s } = Except.ok fs2 := h2
      have h4 : fs2 = { fs with site := some s } := (Except.ok.inj h3).symm
      subst h4
      unfold run
      have hp2 : prepareOutput { fs with site := some s } = .ok fs.staticFiles := by
        unfold prepareOutput
        rw [if_pos hs]
      rw [hp2]
      show (match genSite tp fs.parse fs.staticFiles fs.walk with
        | .error e => (Except.error e : Except GenErr FS)
        | .ok s2 => Except.ok { fs with site := some s2 }) = Except.ok { fs with site := some s }
      rw [hg]
  · have hp : prepareOutput fs = .error .staticMissing := by
      unfold prepareOutput
      rw [if_neg hs]
    rw [hp] at h
    exact Except.noConfusion h

/-- Claim C9 witness: a successful concrete run, and the theorem applied to
its result. -/
theorem c9_run_idempotent_w :
    run tp0 fs0 = .ok fs1o ∧ run tp0 fs1o = .ok fs1o :=
  ⟨rfl, c9_run_idempotent tp0 fs0 fs1o rfl⟩

/-- Claim C10: if the `static` directory is absent, the run aborts during
output preparation (line 50 raises before the walk of line 54 starts): for
every content walk and every parse oracle the result is the static-missing
error, so no content file is walked, parsed or written, and the swallowed
`IOError` of lines 44-47 protects only the `_site` deletion, not the
static copy. -/
theorem c10_missing_static_aborts (tp : Templates) (fs : FS)
    (h : fs.staticExists = false) :
    run tp fs = .error GenErr.staticMissing := by
  unfold run prepareOutput
  rw [if_neg (by simp [h])]

/-- A filesystem with content but no `static` directory. -/
def fs10 : FS :=
  { staticExists := false, staticFiles := []
  , walk := [{ path := "content\\a.md".data, isDir := false }]
  , parse := parse0, site := none }

/-- Claim C10 witness: the theorem applied to `fs10`. -/
theorem c10_missing_static_aborts_w :
    fs10.staticExists = false ∧ run tp0 fs10 = .error GenErr.staticMissing :=
  ⟨rfl, c10_missing_static_aborts tp0 fs10 rfl⟩

end StaticGen
